import Mathlib

/-!
Verification of the protocol/instruction discovery and reward-accounting core
of the solana-gym-env repository, together with the validator session manager,
the growth loop, and the skill registry.

The definitions below are shallow embeddings of the Python source:
* `protocolLabeler`, `extractDiscriminators`, `processReceipt` embed
  `SolanaVoyagerEnv._protocol_labeler`, `._extract_instruction_discriminators`
  and the reward/discovery update in `._run_skill` (src/voyager_env.py).
* `svProtocolLabeler` embeds the superseded labeler in
  src/voyager/solana_voyager_env.py.
* `getOrderedInstructions` embeds `SurfpoolEnv._get_ordered_instructions`
  (src/voyager/surfpool_env.py).
* `startOutcome` / `launchSession` / `stopActions` embed the
  `_surfpool_validator` context manager (src/surfpool_env.py).
* `growSkill` embeds `SolanaVoyagerEnv._grow_skill` (src/voyager_env.py).
* `saveSkill` / `addNewSkill` embed `TypeScriptSkillManager.save_skill`
  (src/skill_manager/ts_skill_manager.py) and
  `TypeScriptSkillManager.add_new_skill`
  (src/voyager/skill_manager/ts_skill_manager.py).
-/

namespace SolanaGym

/-- Association-list lookup with Python-dict semantics (first match; with
`assocInsert` below, keys are unique so this is exactly dict lookup). -/
def assocLookup {α β : Type} [DecidableEq α] : List (α × β) → α → Option β
  | [], _ => none
  | (k, v) :: rest, key => if key = k then some v else assocLookup rest key

/-- Association-list insert with Python-dict overwrite semantics
(`d[k] = v`): replaces the value when the key is present, appends otherwise. -/
def assocInsert {α β : Type} [DecidableEq α] : List (α × β) → α → β → List (α × β)
  | [], key, val => [(key, val)]
  | (k, v) :: rest, key, val =>
    if key = k then (k, val) :: rest else (k, v) :: assocInsert rest key val

/-- Append an element to a list if it is not already a member.  This is the
shape of every `if x not in seen: seen.add(x); out.append(x)` step in the
Python labelers/extractors (the list doubles as the dedup set). -/
def addNew {α : Type} [DecidableEq α] (acc : List α) (x : α) : List α :=
  if x ∈ acc then acc else acc ++ [x]

/-- One instruction of a transaction receipt, as consumed by the
voyager_env.py engine.  `programIdIndex` is `instruction.get("programIdIndex")`
(`none` when the key is missing).  `data` stands for the instruction's data
string after the base64/base58 decode attempt: `none` when the string is
missing, empty or undecodable, `some bs` when it decodes to the bytes `bs`
(the decoded payload may itself be empty). -/
structure Instr where
  programIdIndex : Option ℕ
  data : Option (List ℕ)
deriving DecidableEq

/-- A transaction receipt as consumed by the discovery engine:
`accountKeys` is `transaction.message.accountKeys`, `instructions` the
top-level `transaction.message.instructions`, `innerInstructions` the
instruction lists of the `meta.innerInstructions` groups (in order), and
`metaErr` is `meta.err`. -/
structure Receipt where
  accountKeys : List String
  instructions : List Instr
  innerInstructions : List (List Instr)
  metaErr : Option String
deriving DecidableEq

/-- One instruction step of `_protocol_labeler`'s first loop
(src/voyager_env.py lines 117-125): resolve `programIdIndex` against the
account keys, look the program up in the known-program registry, and append
the display name if it has not been collected yet. -/
def labelStep (known : List (String × String)) (aks : List String)
    (acc : List String) (i : Instr) : List String :=
  match i.programIdIndex with
  | none => acc
  | some idx =>
    if h : idx < aks.length then
      match assocLookup known (aks.get ⟨idx, h⟩) with
      | some name => addNew acc name
      | none => acc
    else acc

/-- One account-key step of `_protocol_labeler`'s second loop
(src/voyager_env.py lines 128-133): any account key that is itself a known
program contributes its display name. -/
def labelKeyStep (known : List (String × String)) (acc : List String)
    (k : String) : List String :=
  match assocLookup known k with
  | some name => addNew acc name
  | none => acc

/-- `SolanaVoyagerEnv._protocol_labeler` (src/voyager_env.py lines 95-137):
returns the ordered duplicate-free list of display names of known programs
referenced by the receipt, from the top-level instructions' program ids and
from the full account-key list.  `none` models a missing/empty receipt.
The transaction's success flag is never consulted. -/
def protocolLabeler (known : List (String × String)) (r? : Option Receipt) :
    List String :=
  match r? with
  | none => []
  | some r =>
    if r.accountKeys.isEmpty then []
    else
      let fromIxs := r.instructions.foldl (labelStep known r.accountKeys) []
      r.accountKeys.foldl (labelKeyStep known) fromIxs

/-- One instruction step of `_extract_instruction_discriminators`
(src/voyager_env.py lines 158-183 and 189-212, identical for top-level and
inner instructions): resolve the program id, and if the instruction data
string is nonempty and decodes to a nonempty byte payload, record the pair
(program id, first byte) if it is new. -/
def extractStep (aks : List String) (acc : List (String × ℕ)) (i : Instr) :
    List (String × ℕ) :=
  match i.programIdIndex with
  | none => acc
  | some idx =>
    if h : idx < aks.length then
      match i.data with
      | some (b :: _) => addNew acc (aks.get ⟨idx, h⟩, b)
      | _ => acc
    else acc

/-- `SolanaVoyagerEnv._extract_instruction_discriminators`
(src/voyager_env.py lines 139-217): the set of (program id, first-byte
discriminator) pairs of the receipt's top-level and inner instructions,
represented as a duplicate-free list in encounter order. -/
def extractDiscriminators (r? : Option Receipt) : List (String × ℕ) :=
  match r? with
  | none => []
  | some r =>
    if r.accountKeys.isEmpty then []
    else
      let top := r.instructions.foldl (extractStep r.accountKeys) []
      r.innerInstructions.foldl
        (fun acc grp => grp.foldl (extractStep r.accountKeys) acc) top

/-- The cumulative discovery state of one episode: `protocols_seen` and
`program_instructions_seen` of `SolanaVoyagerEnv` (the latter flattened to
its set of (program id, discriminator) pairs). -/
structure DiscoveryState where
  protocolsSeen : List String
  instrSeen : List (String × ℕ)
deriving DecidableEq

/-- The protocol-bonus loop of `_run_skill` (src/voyager_env.py lines
479-485): walk the labeled protocols, adding 1.0 and recording each one not
yet seen. -/
def protoAcc : List String → ℚ → List String → ℚ × List String
  | [], c, seen => (c, seen)
  | p :: ps, c, seen =>
    if p ∈ seen then protoAcc ps c seen
    else protoAcc ps (c + 1) (seen ++ [p])

/-- The instruction-bonus loop of `_run_skill` (src/voyager_env.py lines
491-506): walk the extracted (program id, discriminator) pairs, adding 0.5
and recording each pair not yet seen. -/
def instrAcc : List (String × ℕ) → ℚ → List (String × ℕ) →
    ℚ × List (String × ℕ)
  | [], c, seen => (c, seen)
  | pd :: ps, c, seen =>
    if pd ∈ seen then instrAcc ps c seen
    else instrAcc ps (c + 1 / 2) (seen ++ [pd])

/-- The discovery/reward step of `SolanaVoyagerEnv._run_skill`
(src/voyager_env.py lines 470-513) for one processed receipt: the reward is
accumulated from the protocol bonuses and then the instruction bonuses, and
the discovery state is updated in place.  `r? = none` models the paths where
no receipt was obtained (skill failure, submission failure): reward 0 and no
state change. -/
def processReceipt (known : List (String × String)) (r? : Option Receipt)
    (s : DiscoveryState) : ℚ × DiscoveryState :=
  let pr := protoAcc (protocolLabeler known r?) 0 s.protocolsSeen
  let ir := instrAcc (extractDiscriminators r?) pr.1 s.instrSeen
  (ir.1, ⟨pr.2, ir.2⟩)

/-- The protocol-level part of the reward of one receipt against a discovery
state (the total of the +1.0 bonuses granted by the loop at
src/voyager_env.py lines 479-485). -/
def protocolBonus (known : List (String × String)) (r? : Option Receipt)
    (s : DiscoveryState) : ℚ :=
  (protoAcc (protocolLabeler known r?) 0 s.protocolsSeen).1

/-- The operations available within one episode of `SolanaVoyagerEnv.step`
(src/voyager_env.py lines 521-550): running a skill (whose execution and
submission outcome is summarized by the optional receipt it produced),
growing a skill, inspecting the library, and fetching transaction examples.
Only `_run_skill` touches the discovery sets. -/
inductive EpisodeOp
  | runSkillOp (receipt : Option Receipt)
  | growSkillOp
  | inspectLibOp
  | fetchExamplesOp
deriving DecidableEq

/-- Effect of one episode operation on the discovery state: `_run_skill`
applies the discovery/reward update; `_grow_skill`, `_summarise_library` and
`_fetch_transaction_examples` never mutate `protocols_seen` or
`program_instructions_seen` (src/voyager_env.py lines 219-396). -/
def applyOp (known : List (String × String)) (s : DiscoveryState) :
    EpisodeOp → DiscoveryState
  | .runSkillOp r? => (processReceipt known r? s).2
  | .growSkillOp => s
  | .inspectLibOp => s
  | .fetchExamplesOp => s

/-- A sequence of attempts within one episode, applied in order. -/
def runOps (known : List (String × String)) (ops : List EpisodeOp)
    (s : DiscoveryState) : DiscoveryState :=
  ops.foldl (fun st op => applyOp known st op) s

/-- Outcome of `SolanaVoyagerEnv._run_skill`: the returned reward, the
`"error"` entry of the returned info dict (when set on the early-exit path),
and the discovery state after the call. -/
structure RunSkillOutcome where
  reward : ℚ
  errorMsg : Option String
  state : DiscoveryState
deriving DecidableEq

/-- `SolanaVoyagerEnv._run_skill` (src/voyager_env.py lines 398-513) as a
function of the skill registry (`self.skills.skills`, a dict from id to file
path), the requested skill id, and the receipt its execution/submission
pipeline produced (`none` when no transaction was processed).  The unknown-id
guard at lines 403-404 returns reward 0.0 with an error info immediately;
otherwise the discovery/reward update of `processReceipt` runs. -/
def runSkill (known : List (String × String)) (skills : List (ℕ × String))
    (skillId : ℕ) (execReceipt : Option Receipt) (s : DiscoveryState) :
    RunSkillOutcome :=
  if (assocLookup skills skillId).isNone then
    ⟨0, some ("Skill " ++ toString skillId ++ " not found."), s⟩
  else
    let pr := processReceipt known execReceipt s
    ⟨pr.1, none, pr.2⟩

/-- `Instr` well-formedness for the voyager_env.py engine: the instruction
carries a `programIdIndex` that is in range for the receipt's account keys.
The engine skips every instruction for which this fails. -/
def wellFormedIx (aks : List String) (i : Instr) : Bool :=
  match i.programIdIndex with
  | some idx => idx < aks.length
  | none => false

/-- The receipt with every malformed instruction (missing or out-of-range
`programIdIndex`) removed, at top level and in every inner group. -/
def dropMalformed (r : Receipt) : Receipt :=
  { r with
    instructions := r.instructions.filter (wellFormedIx r.accountKeys),
    innerInstructions :=
      r.innerInstructions.map (fun g => g.filter (wellFormedIx r.accountKeys)) }

/-- One account-key check of the superseded labeler in
src/voyager/solana_voyager_env.py (`extract_program_ids`): add the display
name of a known program. -/
def svAddKey (known : List (String × String)) (acc : List String)
    (k : String) : List String :=
  match assocLookup known k with
  | some name => addNew acc name
  | none => acc

/-- One instruction iteration of `extract_program_ids`
(src/voyager/solana_voyager_env.py lines 101-111).  Note that the loop over
the full account-key list is nested inside the per-instruction loop in that
source, so it is replayed here for every instruction. -/
def svInstrStep (known : List (String × String)) (aks : List String)
    (acc : List String) (i : Instr) : List String :=
  let acc1 :=
    match i.programIdIndex with
    | none => acc
    | some idx =>
      if h : idx < aks.length then svAddKey known acc (aks.get ⟨idx, h⟩)
      else acc
  aks.foldl (svAddKey known) acc1

/-- `SolanaVoyagerEnv._protocol_labeler` of the superseded variant
src/voyager/solana_voyager_env.py (lines 78-125): unlike the voyager_env.py
labeler, it returns no protocols when `meta.err` is set ("Transaction failed,
skipping protocol labeling"), and it also walks the inner-instruction
groups. -/
def svProtocolLabeler (known : List (String × String)) (r? : Option Receipt) :
    List String :=
  match r? with
  | none => []
  | some r =>
    match r.metaErr with
    | some _ => []
    | none =>
      if r.accountKeys.isEmpty then []
      else
        let acc := r.instructions.foldl (svInstrStep known r.accountKeys) []
        r.innerInstructions.foldl
          (fun a grp => grp.foldl (svInstrStep known r.accountKeys) a) acc

/-- An instruction of a solders transaction message, as consumed by
`SurfpoolEnv._get_ordered_instructions` (src/voyager/surfpool_env.py).
`data` stands for the base58-decoded instruction data bytes. -/
structure SIx where
  program_id_index : ℕ
  data : List ℕ
deriving DecidableEq

/-- One `meta.inner_instructions` group: the index of the top-level
instruction it belongs to, and its nested instructions in order. -/
structure SInner where
  index : ℕ
  instructions : List SIx
deriving DecidableEq

/-- A finalized transaction as consumed by
`SurfpoolEnv._get_ordered_instructions` / `._get_reward`
(src/voyager/surfpool_env.py lines 255-285). -/
structure STx where
  account_keys : List String
  instructions : List SIx
  innerInstructions : List SInner
deriving DecidableEq

/-- `message.account_keys[ix.program_id_index]` paired with the decoded
data: `none` models the IndexError raised by an out-of-range index. -/
def resolveIx (aks : List String) (i : SIx) : Option (String × List ℕ) :=
  match aks.get? i.program_id_index with
  | some pid => some (pid, i.data)
  | none => none

/-- Resolve a list of inner instructions in order, failing like the Python
list comprehension does if any index is out of range. -/
def resolveList (aks : List String) : List SIx →
    Option (List (String × List ℕ))
  | [] => some []
  | i :: rest =>
    match resolveIx aks i, resolveList aks rest with
    | some x, some xs => some (x :: xs)
    | _, _ => none

/-- The dict comprehension
`{ix.index: ix.instructions for ix in meta.inner_instructions}`
(src/voyager/surfpool_env.py line 256). -/
def buildInnerDict (groups : List SInner) : List (ℕ × List SIx) :=
  groups.foldl (fun d g => assocInsert d g.index g.instructions) []

/-- The enumerate loop of `_get_ordered_instructions`
(src/voyager/surfpool_env.py lines 259-269): for each top-level instruction
append it, then extend with `inner_instructions[idx]`.  The unguarded dict
subscript raises KeyError when `idx` has no inner-instruction group; that and
the unguarded account-key subscripts are modelled by `none`. -/
def orderedGo (aks : List String) (dict : List (ℕ × List SIx)) :
    ℕ → List SIx → Option (List (String × List ℕ))
  | _, [] => some []
  | idx, i :: rest =>
    match resolveIx aks i with
    | none => none
    | some top =>
      match assocLookup dict idx with
      | none => none
      | some grp =>
        match resolveList aks grp, orderedGo aks dict (idx + 1) rest with
        | some inner, some tail => some (top :: inner ++ tail)
        | _, _ => none

/-- `SurfpoolEnv._get_ordered_instructions`
(src/voyager/surfpool_env.py lines 255-270). -/
def getOrderedInstructions (tx : STx) : Option (List (String × List ℕ)) :=
  orderedGo tx.account_keys (buildInnerDict tx.innerInstructions) 0
    tx.instructions

/-- Characters of the READY_TOKEN literal `b"Connection established."`
(src/surfpool_env.py line 30). -/
def readyChars : List Char := "Connection established.".toList

/-- Whether `pat` is an initial segment of `l` (byte-level prefix test). -/
def isPrefixCh : List Char → List Char → Bool
  | [], _ => true
  | _ :: _, [] => false
  | a :: pat, b :: l => a == b && isPrefixCh pat l

/-- Whether the READY_TOKEN occurs inside a line (the Python test
`READY_TOKEN in line`). -/
def containsTok : List Char → Bool
  | [] => isPrefixCh readyChars []
  | c :: rest => isPrefixCh readyChars (c :: rest) || containsTok rest

/-- Outcome of the readiness loop of `_surfpool_validator`
(src/surfpool_env.py lines 64-72).  `hangs` is the behavior when the process
stays alive but never prints the token: `readline` blocks and the loop never
exits (there is no timeout in the source). -/
inductive StartOutcome
  | ready
  | prematureExit
  | hangs
deriving DecidableEq

/-- The readiness loop: read the lines the validator subprocess will ever
emit, in order.  A line containing the token breaks the loop; an empty read
(`eof = true`, the process exited) raises
`RuntimeError("surfpool exited before becoming ready")`; otherwise the loop
blocks forever on the next `readline`. -/
def startOutcome : List (List Char) → Bool → StartOutcome
  | [], eof => if eof then .prematureExit else .hangs
  | l :: ls, eof => if containsTok l then .ready else startOutcome ls eof

/-- Signals sent to the validator's process group on teardown. -/
inductive Sig
  | sigterm
  | sigkill
deriving DecidableEq

/-- The `finally` block of `_surfpool_validator` (src/surfpool_env.py lines
74-84): nothing is sent when the process has already exited; otherwise
SIGTERM to the process group, and SIGKILL only if the process does not exit
within the 8-second grace period (`graceful = false`). -/
def stopActions (stillRunning graceful : Bool) : List Sig :=
  if stillRunning then
    if graceful then [.sigterm] else [.sigterm, .sigkill]
  else []

/-- The start path of `_surfpool_validator` together with whether its
`finally` teardown block runs.  The `finally` block runs whenever the
readiness loop returns or raises; when the loop blocks forever it is never
reached. -/
def launchSession (lines : List (List Char)) (eof : Bool) :
    StartOutcome × Bool :=
  match startOutcome lines eof with
  | .hangs => (.hangs, false)
  | .ready => (.ready, true)
  | .prematureExit => (.prematureExit, true)

/-- `CONFIG_MAX_LLM_SKILL_TRIES` (src/voyager_env.py line 21). -/
def CONFIG_MAX_LLM_SKILL_TRIES : ℕ := 3

/-- Outcome of one proposal+test iteration of `_grow_skill`
(src/voyager_env.py lines 231-259): either the proposed skill code passed the
test (its serialized transaction deserialized), or the attempt failed with an
error detail (deserialization error or runtime exception). -/
inductive AttemptRes
  | ok (code : String)
  | fail (err : String)
deriving DecidableEq

/-- Whether an attempt outcome is a failure. -/
def isFailA : AttemptRes → Bool
  | .ok _ => false
  | .fail _ => true

/-- Result of `SolanaVoyagerEnv._grow_skill`: the returned reward (0.0 on
both paths in the source), the registered skill id on success, the
`last_error` carried by the failure info, the skill registry afterwards, and
the number of proposal attempts consumed. -/
structure GrowResult where
  reward : ℚ
  newSkillId : Option ℕ
  lastError : Option String
  skills : List String
  attemptsUsed : ℕ
deriving DecidableEq

/-- The retry loop of `_grow_skill` (src/voyager_env.py lines 226-263).
`attempt i e` is the combined outcome of proposing with the fed-back error
`e` at iteration `i` and testing the proposal; on success the code is
registered (appended to the registry, its id the next integer) and the loop
returns; on failure the error detail becomes the next iteration's input;
when the budget is exhausted the failure info carries the last error and the
registry is untouched. -/
def growGo (attempt : ℕ → Option String → AttemptRes) (skills : List String) :
    ℕ → ℕ → Option String → GrowResult
  | 0, used, lastErr => ⟨0, none, lastErr, skills, used⟩
  | fuel + 1, used, lastErr =>
    match attempt used lastErr with
    | .ok code => ⟨0, some skills.length, none, skills ++ [code], used + 1⟩
    | .fail e => growGo attempt skills fuel (used + 1) (some e)

/-- `SolanaVoyagerEnv._grow_skill` (src/voyager_env.py lines 219-263). -/
def growSkill (attempt : ℕ → Option String → AttemptRes)
    (skills : List String) : GrowResult :=
  growGo attempt skills CONFIG_MAX_LLM_SKILL_TRIES 0 none

/-- The error fed into proposal `i` of the grow loop: `none` for the first
attempt, and the failure detail of attempt `i - 1` afterwards (meaningful
while every earlier attempt failed, which is the only way attempt `i` is
reached). -/
def fedErr (attempt : ℕ → Option String → AttemptRes) : ℕ → Option String
  | 0 => none
  | i + 1 =>
    match attempt i (fedErr attempt i) with
    | .fail e => some e
    | .ok _ => fedErr attempt i

/-- A concrete attempt oracle used by the growth-loop witness: the first
proposal fails with detail `"boom"`, every later one passes. -/
def attemptW : ℕ → Option String → AttemptRes :=
  fun i _ => if i = 0 then .fail "boom" else .ok "tx-ok"

/-- A file in the skill storage directory.  `ver = 0` stands for the plain
file `base.ts`; `ver = i` with `i ≥ 2` stands for the archived version
`baseVi.ts` produced by `add_new_skill`'s collision loop (the loop starts at
2, so `ver = 1` never occurs). -/
structure SkillFile where
  base : String
  ver : ℕ
deriving DecidableEq

/-- Sum of the version numbers of all files present; used to bound the
collision-avoidance while loop of `add_new_skill`. -/
def verSum : List (SkillFile × String) → ℕ
  | [] => 0
  | (f, _) :: rest => f.ver + verSum rest

/-- The `while f"{name}V{i}.ts" in os.listdir(...)` loop of `add_new_skill`
(src/voyager/skill_manager/ts_skill_manager.py lines 93-95), with explicit
fuel (the loop terminates because the directory is finite). -/
def findFreeVer (files : List (SkillFile × String)) (name : String) :
    ℕ → ℕ → ℕ
  | i, 0 => i
  | i, fuel + 1 =>
    if (assocLookup files ⟨name, i⟩).isSome then
      findFreeVer files name (i + 1) fuel
    else i

/-- The version suffix chosen by `add_new_skill` for a name collision:
the first `i ≥ 2` such that `nameVi.ts` does not exist. -/
def freeVer (files : List (SkillFile × String)) (name : String) : ℕ :=
  findFreeVer files name 2 (verSum files + 1)

/-- `TypeScriptSkillManager.add_new_skill`
(src/voyager/skill_manager/ts_skill_manager.py lines 83-120), restricted to
its effect on the skills dict and the code directory: when the name is
already registered the code is dumped under the first free V-suffixed file
name, otherwise under the plain file name; the skills dict entry is set to
the new code either way. -/
def addNewSkill (skills : List (String × String))
    (files : List (SkillFile × String)) (name code : String) :
    List (String × String) × List (SkillFile × String) :=
  let dumped : SkillFile :=
    if (assocLookup skills name).isSome then ⟨name, freeVer files name⟩
    else ⟨name, 0⟩
  (assocInsert skills name code, assocInsert files dumped code)

/-- `TypeScriptSkillManager.save_skill`
(src/skill_manager/ts_skill_manager.py lines 39-43): opens
`{skills_dir}/{name}.ts` in write mode, overwriting any existing content. -/
def saveSkill (files : List (SkillFile × String)) (name code : String) :
    List (SkillFile × String) :=
  assocInsert files ⟨name, 0⟩ code

/-- A registry used by the witnesses and counterexamples: one known program
`"ProgA"` with display name `"Alpha"`. -/
def known0 : List (String × String) := [("ProgA", "Alpha")]

/-- The empty discovery state, as after `reset()`. -/
def state0 : DiscoveryState := ⟨[], []⟩

/-- A receipt referencing `"ProgA"` through a well-formed instruction whose
data decodes to the single byte 7. -/
def rcptA : Receipt := ⟨["ProgA"], [⟨some 0, some [7]⟩], [], none⟩

/-- A receipt whose only instruction has an out-of-range `programIdIndex`
(5, against a single account key) while the account-key list still contains
the known program `"ProgA"`. -/
def rcptBadIdx : Receipt := ⟨["ProgA"], [⟨some 5, none⟩], [], none⟩

/-- The transaction of the flattening-order example: two top-level
instructions (programs at account-key indices 0 and 1), with inner
instructions only for top-level index 0 — `meta.innerInstructions` carries
no entry for index 1, as the RPC representation omits empty groups. -/
def txSparse : STx :=
  ⟨["Asys", "Bprog"], [⟨0, [1]⟩, ⟨1, [2]⟩], [⟨0, [⟨0, [3]⟩, ⟨1, [4]⟩]⟩]⟩

/-- The same transaction with a (non-standard) explicit empty inner group
for top-level index 1. -/
def txDense : STx :=
  ⟨["Asys", "Bprog"], [⟨0, [1]⟩, ⟨1, [2]⟩],
    [⟨0, [⟨0, [3]⟩, ⟨1, [4]⟩]⟩, ⟨1, []⟩]⟩

/-! ### Helper lemmas -/

theorem addNew_nodup {α : Type} [DecidableEq α] {acc : List α} (x : α)
    (h : acc.Nodup) : (addNew acc x).Nodup := by
  unfold addNew
  split
  · exact h
  · rename_i hx
    simp [List.nodup_append, h, hx]

theorem mem_addNew_of_mem {α : Type} [DecidableEq α] {acc : List α}
    {y : α} (x : α) (h : y ∈ acc) : y ∈ addNew acc x := by
  unfold addNew
  split
  · exact h
  · exact List.mem_append_left _ h

theorem foldl_preserves_nodup {α β : Type} (f : List α → β → List α)
    (hf : ∀ acc b, acc.Nodup → (f acc b).Nodup) :
    ∀ (l : List β) (acc : List α), acc.Nodup → (l.foldl f acc).Nodup := by
  intro l
  induction l with
  | nil => intro acc h; exact h
  | cons b bs ih => intro acc h; exact ih (f acc b) (hf acc b h)

theorem labelStep_nodup (known : List (String × String)) (aks : List String)
    (acc : List String) (i : Instr) (h : acc.Nodup) :
    (labelStep known aks acc i).Nodup := by
  unfold labelStep
  split
  · exact h
  · split
    · split
      · exact addNew_nodup _ h
      · exact h
    · exact h

theorem labelKeyStep_nodup (known : List (String × String))
    (acc : List String) (k : String) (h : acc.Nodup) :
    (labelKeyStep known acc k).Nodup := by
  unfold labelKeyStep
  split
  · exact addNew_nodup _ h
  · exact h

theorem extractStep_nodup (aks : List String) (acc : List (String × ℕ))
    (i : Instr) (h : acc.Nodup) : (extractStep aks acc i).Nodup := by
  unfold extractStep
  split
  · exact h
  · split
    · split
      · exact addNew_nodup _ h
      · exact h
    · exact h

theorem protocolLabeler_nodup (known : List (String × String))
    (r? : Option Receipt) : (protocolLabeler known r?).Nodup := by
  cases r? with
  | none => exact List.nodup_nil
  | some r =>
    simp only [protocolLabeler]
    split
    · exact List.nodup_nil
    · exact foldl_preserves_nodup (labelKeyStep known)
        (labelKeyStep_nodup known) r.accountKeys _
        (foldl_preserves_nodup (labelStep known r.accountKeys)
          (labelStep_nodup known r.accountKeys) r.instructions []
          List.nodup_nil)

theorem extractDiscriminators_nodup (r? : Option Receipt) :
    (extractDiscriminators r?).Nodup := by
  cases r? with
  | none => exact List.nodup_nil
  | some r =>
    simp only [extractDiscriminators]
    split
    · exact List.nodup_nil
    · exact foldl_preserves_nodup
        (fun acc grp => grp.foldl (extractStep r.accountKeys) acc)
        (fun acc grp h =>
          foldl_preserves_nodup (extractStep r.accountKeys)
            (extractStep_nodup r.accountKeys) grp acc h)
        r.innerInstructions _
        (foldl_preserves_nodup (extractStep r.accountKeys)
          (extractStep_nodup r.accountKeys) r.instructions []
          List.nodup_nil)

theorem protoAcc_fst_le (l : List String) :
    ∀ (c : ℚ) (seen : List String), c ≤ (protoAcc l c seen).1 := by
  induction l with
  | nil => intro c seen; simp [protoAcc]
  | cons p ps ih =>
    intro c seen
    unfold protoAcc
    split
    · exact ih c seen
    · calc c ≤ c + 1 := by linarith
        _ ≤ (protoAcc ps (c + 1) (seen ++ [p])).1 := ih _ _

theorem protoAcc_seen_mem (l : List String) :
    ∀ (c : ℚ) (seen : List String) (q : String),
      q ∈ seen → q ∈ (protoAcc l c seen).2 := by
  induction l with
  | nil => intro c seen q h; simpa [protoAcc] using h
  | cons p ps ih =>
    intro c seen q h
    unfold protoAcc
    split
    · exact ih c seen q h
    · exact ih (c + 1) (seen ++ [p]) q (List.mem_append_left _ h)

theorem protoAcc_mem_list (l : List String) :
    ∀ (c : ℚ) (seen : List String) (p : String),
      p ∈ l → p ∈ (protoAcc l c seen).2 := by
  induction l with
  | nil => intro c seen p h; cases h
  | cons q qs ih =>
    intro c seen p h
    unfold protoAcc
    rcases List.mem_cons.mp h with rfl | hmem
    · split
      · rename_i hq
        exact protoAcc_seen_mem qs c seen p hq
      · exact protoAcc_seen_mem qs (c + 1) (seen ++ [p]) p
          (List.mem_append_right _ (List.mem_singleton.mpr rfl))
    · split
      · exact ih c seen p hmem
      · exact ih (c + 1) (seen ++ [q]) p hmem

theorem protoAcc_all_seen (l : List String) :
    ∀ (c : ℚ) (seen : List String),
      (∀ q ∈ l, q ∈ seen) → protoAcc l c seen = (c, seen) := by
  induction l with
  | nil => intro c seen _; rfl
  | cons p ps ih =>
    intro c seen h
    unfold protoAcc
    rw [if_pos (h p (List.mem_cons_self p ps))]
    exact ih c seen (fun q hq => h q (List.mem_cons_of_mem p hq))

theorem protoAcc_fst_new (l : List String) :
    ∀ (c : ℚ) (seen : List String) (p : String),
      p ∈ l → p ∉ seen → c + 1 ≤ (protoAcc l c seen).1 := by
  induction l with
  | nil => intro c seen p hp _; cases hp
  | cons q qs ih =>
    intro c seen p hp hseen
    unfold protoAcc
    rcases List.mem_cons.mp hp with rfl | hmem
    · rw [if_neg hseen]
      exact protoAcc_fst_le qs (c + 1) (seen ++ [p])
    · split
      · exact ih c seen p hmem hseen
      · by_cases hpq : p = q
        · calc c + 1 ≤ c + 1 := le_refl _
            _ ≤ (protoAcc qs (c + 1) (seen ++ [q])).1 :=
              protoAcc_fst_le qs (c + 1) (seen ++ [q])
        · have hnot : p ∉ seen ++ [q] := by
            simp [List.mem_append, hseen, hpq]
          calc c + 1 ≤ (c + 1) + 1 := by linarith
            _ ≤ (protoAcc qs (c + 1) (seen ++ [q])).1 :=
              ih (c + 1) (seen ++ [q]) p hmem hnot

theorem protoAcc_count (l : List String) :
    ∀ (c : ℚ) (seen : List String), l.Nodup →
      (protoAcc l c seen).1 =
        c + ((l.filter (fun p => decide (p ∉ seen))).length : ℚ) := by
  induction l with
  | nil => intro c seen _; simp [protoAcc]
  | cons p ps ih =>
    intro c seen hnd
    have hps : ps.Nodup := (List.nodup_cons.mp hnd).2
    have hpnotin : p ∉ ps := (List.nodup_cons.mp hnd).1
    unfold protoAcc
    split
    · rename_i hseen
      rw [ih c seen hps]
      simp [List.filter_cons, hseen]
    · rename_i hseen
      rw [ih (c + 1) (seen ++ [p]) hps]
      have hfilter : ps.filter (fun q => decide (q ∉ seen ++ [p])) =
          ps.filter (fun q => decide (q ∉ seen)) := by
        apply List.filter_congr
        intro q hq
        have hqp : q ≠ p := fun h => hpnotin (h ▸ hq)
        simp [List.mem_append, hqp]
      rw [hfilter]
      simp [List.filter_cons, hseen]
      ring

theorem instrAcc_seen_mem (l : List (String × ℕ)) :
    ∀ (c : ℚ) (seen : List (String × ℕ)) (q : String × ℕ),
      q ∈ seen → q ∈ (instrAcc l c seen).2 := by
  induction l with
  | nil => intro c seen q h; simpa [instrAcc] using h
  | cons p ps ih =>
    intro c seen q h
    unfold instrAcc
    split
    · exact ih c seen q h
    · exact ih (c + 1 / 2) (seen ++ [p]) q (List.mem_append_left _ h)

theorem instrAcc_count (l : List (String × ℕ)) :
    ∀ (c : ℚ) (seen : List (String × ℕ)), l.Nodup →
      (instrAcc l c seen).1 =
        c + ((l.filter (fun pd => decide (pd ∉ seen))).length : ℚ) * (1 / 2) := by
  induction l with
  | nil => intro c seen _; simp [instrAcc]
  | cons p ps ih =>
    intro c seen hnd
    have hps : ps.Nodup := (List.nodup_cons.mp hnd).2
    have hpnotin : p ∉ ps := (List.nodup_cons.mp hnd).1
    unfold instrAcc
    split
    · rename_i hseen
      rw [ih c seen hps]
      simp [List.filter_cons, hseen]
    · rename_i hseen
      rw [ih (c + 1 / 2) (seen ++ [p]) hps]
      have hfilter : ps.filter (fun q => decide (q ∉ seen ++ [p])) =
          ps.filter (fun q => decide (q ∉ seen)) := by
        apply List.filter_congr
        intro q hq
        have hqp : q ≠ p := fun h => hpnotin (h ▸ hq)
        simp [List.mem_append, hqp]
      rw [hfilter]
      simp [List.filter_cons, hseen]
      ring

theorem foldl_filter_skip {α β : Type} (f : β → α → β) (p : α → Bool)
    (h : ∀ b a, p a = false → f b a = b) :
    ∀ (l : List α) (b : β), (l.filter p).foldl f b = l.foldl f b := by
  intro l
  induction l with
  | nil => intro b; rfl
  | cons a as ih =>
    intro b
    rcases hp : p a with _ | _
    · rw [List.filter_cons, hp]
      simp only [List.foldl_cons, h b a hp]
      exact ih b
    · rw [List.filter_cons, hp]
      simp only [List.foldl_cons]
      exact ih (f b a)

theorem labelStep_malformed (known : List (String × String))
    (aks : List String) (acc : List String) (i : Instr)
    (h : wellFormedIx aks i = false) : labelStep known aks acc i = acc := by
  unfold labelStep
  unfold wellFormedIx at h
  split
  · rfl
  · rename_i idx heq
    rw [heq] at h
    simp only [decide_eq_false_iff_not] at h
    rw [dif_neg h]

theorem extractStep_malformed (aks : List String) (acc : List (String × ℕ))
    (i : Instr) (h : wellFormedIx aks i = false) :
    extractStep aks acc i = acc := by
  unfold extractStep
  unfold wellFormedIx at h
  split
  · rfl
  · rename_i idx heq
    rw [heq] at h
    simp only [decide_eq_false_iff_not] at h
    rw [dif_neg h]

theorem inner_foldl_filter (aks : List String)
    (groups : List (List Instr)) :
    ∀ acc : List (String × ℕ),
      (groups.map (fun g => g.filter (wellFormedIx aks))).foldl
        (fun a grp => grp.foldl (extractStep aks) a) acc =
      groups.foldl (fun a grp => grp.foldl (extractStep aks) a) acc := by
  induction groups with
  | nil => intro acc; rfl
  | cons g gs ih =>
    intro acc
    simp only [List.map_cons, List.foldl_cons]
    rw [foldl_filter_skip (extractStep aks) (wellFormedIx aks)
      (extractStep_malformed aks) g acc]
    exact ih _

theorem protocolLabeler_dropMalformed (known : List (String × String))
    (r : Receipt) :
    protocolLabeler known (some (dropMalformed r)) =
      protocolLabeler known (some r) := by
  simp only [protocolLabeler, dropMalformed]
  rw [foldl_filter_skip (labelStep known r.accountKeys)
    (wellFormedIx r.accountKeys) (labelStep_malformed known r.accountKeys)]

theorem extractDiscriminators_dropMalformed (r : Receipt) :
    extractDiscriminators (some (dropMalformed r)) =
      extractDiscriminators (some r) := by
  simp only [extractDiscriminators, dropMalformed]
  rw [foldl_filter_skip (extractStep r.accountKeys)
    (wellFormedIx r.accountKeys) (extractStep_malformed r.accountKeys)]
  rw [inner_foldl_filter r.accountKeys r.innerInstructions]

theorem assocLookup_insert_self {α β : Type} [DecidableEq α]
    (l : List (α × β)) (k : α) (v : β) :
    assocLookup (assocInsert l k v) k = some v := by
  induction l with
  | nil => simp [assocInsert, assocLookup]
  | cons kv rest ih =>
    obtain ⟨k₂, v₂⟩ := kv
    unfold assocInsert
    by_cases hk : k = k₂
    · subst hk
      simp [assocLookup]
    · rw [if_neg hk]
      unfold assocLookup
      rw [if_neg hk]
      exact ih

theorem assocLookup_insert_ne {α β : Type} [DecidableEq α]
    (l : List (α × β)) (k k₁ : α) (v : β) (h : k₁ ≠ k) :
    assocLookup (assocInsert l k v) k₁ = assocLookup l k₁ := by
  induction l with
  | nil => simp [assocInsert, assocLookup, h]
  | cons kv rest ih =>
    obtain ⟨k₂, v₂⟩ := kv
    unfold assocInsert
    by_cases hk : k = k₂
    · subst hk
      rw [if_pos rfl]
      unfold assocLookup
      rw [if_neg h, if_neg h]
    · rw [if_neg hk]
      unfold assocLookup
      by_cases hk₁ : k₁ = k₂
      · rw [if_pos hk₁, if_pos hk₁]
      · rw [if_neg hk₁, if_neg hk₁]
        exact ih

theorem lookup_ver_le_verSum (files : List (SkillFile × String)) :
    ∀ f : SkillFile, (assocLookup files f).isSome → f.ver ≤ verSum files := by
  induction files with
  | nil => intro f h; simp [assocLookup] at h
  | cons gv rest ih =>
    intro f h
    obtain ⟨g, c⟩ := gv
    unfold assocLookup at h
    unfold verSum
    by_cases hf : f = g
    · subst hf
      omega
    · rw [if_neg hf] at h
      have := ih f h
      omega

theorem findFreeVer_free (files : List (SkillFile × String)) (name : String) :
    ∀ (fuel i : ℕ), verSum files < i + fuel →
      assocLookup files ⟨name, findFreeVer files name i fuel⟩ = none := by
  intro fuel
  induction fuel with
  | zero =>
    intro i hlt
    unfold findFreeVer
    cases hl : assocLookup files ⟨name, i⟩ with
    | none => rfl
    | some c =>
      have := lookup_ver_le_verSum files ⟨name, i⟩ (by simp [hl])
      simp at this
      omega
  | succ fuel ih =>
    intro i hlt
    unfold findFreeVer
    cases hl : assocLookup files ⟨name, i⟩ with
    | none =>
      simp only [hl, Option.isSome_none, Bool.false_eq_true, if_false]
    | some c =>
      simp only [hl, Option.isSome_some, if_true]
      exact ih (i + 1) (by omega)

theorem findFreeVer_ge (files : List (SkillFile × String)) (name : String) :
    ∀ (fuel i : ℕ), i ≤ findFreeVer files name i fuel := by
  intro fuel
  induction fuel with
  | zero => intro i; simp [findFreeVer]
  | succ fuel ih =>
    intro i
    unfold findFreeVer
    split
    · calc i ≤ i + 1 := by omega
        _ ≤ findFreeVer files name (i + 1) fuel := ih (i + 1)
    · exact le_refl i

theorem freeVer_free (files : List (SkillFile × String)) (name : String) :
    assocLookup files ⟨name, freeVer files name⟩ = none :=
  findFreeVer_free files name (verSum files + 1) 2 (by omega)

theorem freeVer_ge_two (files : List (SkillFile × String)) (name : String) :
    2 ≤ freeVer files name :=
  findFreeVer_ge files name (verSum files + 1) 2

theorem startOutcome_no_token (lines : List (List Char)) :
    ∀ eof : Bool, (∀ l ∈ lines, containsTok l = false) →
      startOutcome lines eof = (if eof then .prematureExit else .hangs) := by
  induction lines with
  | nil => intro eof _; rfl
  | cons l ls ih =>
    intro eof h
    unfold startOutcome
    rw [h l (List.mem_cons_self l ls)]
    simp only [Bool.false_eq_true, if_false]
    exact ih eof (fun x hx => h x (List.mem_cons_of_mem l hx))

theorem startOutcome_token (lines : List (List Char)) :
    ∀ eof : Bool, (∃ l ∈ lines, containsTok l = true) →
      startOutcome lines eof = .ready := by
  induction lines with
  | nil => intro eof h; simp at h
  | cons l ls ih =>
    intro eof h
    unfold startOutcome
    by_cases hl : containsTok l = true
    · rw [hl]
      simp
    · rw [Bool.not_eq_true] at hl
      rw [hl]
      simp only [Bool.false_eq_true, if_false]
      rcases h with ⟨x, hx, hxt⟩
      rcases List.mem_cons.mp hx with rfl | hmem
      · exact absurd hxt (by simp [hl])
      · exact ih eof ⟨x, hmem, hxt⟩

theorem launchSession_teardown (lines : List (List Char)) (eof : Bool)
    (h : startOutcome lines eof ≠ .hangs) :
    (launchSession lines eof).2 = true := by
  unfold launchSession
  cases ho : startOutcome lines eof with
  | ready => rfl
  | prematureExit => rfl
  | hangs => exact absurd ho h

/-! ### Claim theorems -/

/-- Claim C1: exactly-once novelty reward.  The label list of a receipt is
duplicate-free, so a protocol referenced by several instructions of one
transaction is counted at most once; a previously-unseen labeled protocol
earns the +1.0 bonus (the protocol-level bonus is at least 1) and enters the
discovered set; and a second receipt whose labeled protocols are all covered
by the first receipt's labels or the prior state earns protocol-level bonus
exactly 0. -/
theorem novelty_reward_exactly_once (known : List (String × String))
    (s : DiscoveryState) (r₁ r₂ : Receipt)
    (hcover : ∀ q ∈ protocolLabeler known (some r₂),
      q ∈ protocolLabeler known (some r₁) ∨ q ∈ s.protocolsSeen) :
    (protocolLabeler known (some r₁)).Nodup ∧
    (∀ p ∈ protocolLabeler known (some r₁), p ∉ s.protocolsSeen →
      1 ≤ protocolBonus known (some r₁) s ∧
      p ∈ ((processReceipt known (some r₁) s).2).protocolsSeen) ∧
    protocolBonus known (some r₂) ((processReceipt known (some r₁) s).2) = 0 := by
  refine ⟨protocolLabeler_nodup known (some r₁), ?_, ?_⟩
  · intro p hp hnot
    constructor
    · have h1 := protoAcc_fst_new (protocolLabeler known (some r₁)) 0
        s.protocolsSeen p hp hnot
      unfold protocolBonus
      linarith
    · exact protoAcc_mem_list _ _ _ p hp
  · unfold protocolBonus
    have hall : ∀ q ∈ protocolLabeler known (some r₂),
        q ∈ ((processReceipt known (some r₁) s).2).protocolsSeen := by
      intro q hq
      rcases hcover q hq with h1 | h2
      · exact protoAcc_mem_list _ _ _ q h1
      · exact protoAcc_seen_mem _ _ _ q h2
    rw [protoAcc_all_seen _ _ _ hall]

/-- Witness for C1 at a concrete input: the receipt `rcptA` references the
known program, covering itself, and after processing it once its
protocol-level bonus against the updated state is 0 while the first pass
earned at least 1. -/
theorem novelty_reward_exactly_once_witness :
    (∀ q ∈ protocolLabeler known0 (some rcptA),
      q ∈ protocolLabeler known0 (some rcptA) ∨ q ∈ state0.protocolsSeen) ∧
    1 ≤ protocolBonus known0 (some rcptA) state0 ∧
    protocolBonus known0 (some rcptA)
      ((processReceipt known0 (some rcptA) state0).2) = 0 :=
  ⟨fun _ hq => Or.inl hq,
   ((novelty_reward_exactly_once known0 state0 rcptA rcptA
      (fun _ hq => Or.inl hq)).2.1 "Alpha" (by decide) (by decide)).1,
   (novelty_reward_exactly_once known0 state0 rcptA rcptA
      (fun _ hq => Or.inl hq)).2.2⟩

/-- Claim C2: reward composition.  The reward of a processed receipt is
exactly 1.0 per labeled protocol name not already in the discovered-protocol
set plus 0.5 per extracted (program id, first-byte discriminator) pair not
already in the discovered-instruction set; an instruction whose data is
missing/undecodable (`none`) or decodes to an empty payload contributes no
instruction-level discovery, and the protocol labeler never reads the data
field at all. -/
theorem reward_composition (known : List (String × String))
    (r? : Option Receipt) (s : DiscoveryState) :
    (processReceipt known r? s).1 =
      (((protocolLabeler known r?).filter
          (fun p => decide (p ∉ s.protocolsSeen))).length : ℚ) * 1 +
      (((extractDiscriminators r?).filter
          (fun pd => decide (pd ∉ s.instrSeen))).length : ℚ) * (1 / 2) ∧
    (∀ (aks : List String) (acc : List (String × ℕ)) (i : Instr),
      i.data = none ∨ i.data = some [] → extractStep aks acc i = acc) ∧
    (∀ (aks acc : List String) (i : Instr) (d : Option (List ℕ)),
      labelStep known aks acc { i with data := d } =
        labelStep known aks acc i) := by
  refine ⟨?_, ?_, ?_⟩
  · show (instrAcc (extractDiscriminators r?)
        (protoAcc (protocolLabeler known r?) 0 s.protocolsSeen).1
        s.instrSeen).1 = _
    rw [instrAcc_count _ _ _ (extractDiscriminators_nodup r?)]
    rw [protoAcc_count _ _ _ (protocolLabeler_nodup known r?)]
    ring
  · intro aks acc i hd
    obtain ⟨pi, di⟩ := i
    rcases hd with hd | hd
    all_goals
      simp only at hd
      subst hd
      cases pi with
      | none => rfl
      | some idx =>
        by_cases hlt : idx < aks.length
        · simp [extractStep, hlt]
        · simp [extractStep, hlt]
  · intro aks acc i d
    obtain ⟨pi, di⟩ := i
    rfl

/-- Witness for C2 at a concrete input. -/
theorem reward_composition_witness :
    (processReceipt known0 (some rcptA) state0).1 =
      (((protocolLabeler known0 (some rcptA)).filter
          (fun p => decide (p ∉ state0.protocolsSeen))).length : ℚ) * 1 +
      (((extractDiscriminators (some rcptA)).filter
          (fun pd => decide (pd ∉ state0.instrSeen))).length : ℚ) * (1 / 2) :=
  (reward_composition known0 (some rcptA) state0).1

/-- Claim C3: monotonicity of the discovery state.  Over any sequence of
episode operations, every protocol name and every (program id,
discriminator) pair present in the state remains present afterwards: the
sets only ever grow and no key is removed. -/
theorem discovery_monotone (known : List (String × String))
    (ops : List EpisodeOp) :
    ∀ s : DiscoveryState,
      (∀ p ∈ s.protocolsSeen, p ∈ (runOps known ops s).protocolsSeen) ∧
      (∀ pd ∈ s.instrSeen, pd ∈ (runOps known ops s).instrSeen) := by
  induction ops with
  | nil => intro s; exact ⟨fun _ hp => hp, fun _ hpd => hpd⟩
  | cons op rest ih =>
    intro s
    have hstep1 : ∀ p ∈ s.protocolsSeen,
        p ∈ (applyOp known s op).protocolsSeen := by
      cases op with
      | runSkillOp r? => intro p hp; exact protoAcc_seen_mem _ _ _ p hp
      | growSkillOp => intro p hp; exact hp
      | inspectLibOp => intro p hp; exact hp
      | fetchExamplesOp => intro p hp; exact hp
    have hstep2 : ∀ pd ∈ s.instrSeen, pd ∈ (applyOp known s op).instrSeen := by
      cases op with
      | runSkillOp r? => intro pd hpd; exact instrAcc_seen_mem _ _ _ pd hpd
      | growSkillOp => intro pd hpd; exact hpd
      | inspectLibOp => intro pd hpd; exact hpd
      | fetchExamplesOp => intro pd hpd; exact hpd
    refine ⟨fun p hp => ?_, fun pd hpd => ?_⟩
    · exact (ih (applyOp known s op)).1 p (hstep1 p hp)
    · exact (ih (applyOp known s op)).2 pd (hstep2 pd hpd)

/-- Witness for C3 at a concrete input: a pre-seeded state keeps its keys
through a run-skill attempt followed by a grow-skill attempt. -/
theorem discovery_monotone_witness :
    "Zeta" ∈ (runOps known0
      [EpisodeOp.runSkillOp (some rcptA), EpisodeOp.growSkillOp]
      ⟨["Zeta"], [("Q", 3)]⟩).protocolsSeen ∧
    ("Q", 3) ∈ (runOps known0
      [EpisodeOp.runSkillOp (some rcptA), EpisodeOp.growSkillOp]
      ⟨["Zeta"], [("Q", 3)]⟩).instrSeen :=
  ⟨(discovery_monotone known0
      [EpisodeOp.runSkillOp (some rcptA), EpisodeOp.growSkillOp]
      ⟨["Zeta"], [("Q", 3)]⟩).1 "Zeta" (by decide),
   (discovery_monotone known0
      [EpisodeOp.runSkillOp (some rcptA), EpisodeOp.growSkillOp]
      ⟨["Zeta"], [("Q", 3)]⟩).2 ("Q", 3) (by decide)⟩

/-- Counterexample to claim C4 as stated: `rcptBadIdx` is a record whose
only instruction has an out-of-range `programIdIndex`, yet the engine
returns reward 1 (not 0) and does change the discovery state, because the
account-key pass of `_protocol_labeler` still finds the known program in
`accountKeys`. -/
theorem malformed_record_still_rewards :
    (∀ i ∈ rcptBadIdx.instructions,
      wellFormedIx rcptBadIdx.accountKeys i = false) ∧
    (processReceipt known0 (some rcptBadIdx) state0).1 = 1 ∧
    (processReceipt known0 (some rcptBadIdx) state0).2 ≠ state0 := by
  refine ⟨by decide, ?_, by decide⟩
  simp [processReceipt, protoAcc, instrAcc, protocolLabeler,
    extractDiscriminators, labelStep, labelKeyStep, extractStep, addNew,
    assocLookup, known0, rcptBadIdx, state0]

/-- Claim C4 (amended): a malformed instruction (missing or out-of-range
`programIdIndex`) is skipped by the engine — removing every such instruction
from the record leaves the reward and the state update unchanged, each such
instruction is an identity step for both the labeler and the discriminator
extractor, and the engine is total (never raises); discovery from the
remaining record content, in particular the account-key pass, still
applies. -/
theorem malformed_instructions_skipped (known : List (String × String))
    (r : Receipt) (s : DiscoveryState) :
    processReceipt known (some (dropMalformed r)) s =
      processReceipt known (some r) s ∧
    (∀ (acc : List String) (i : Instr),
      wellFormedIx r.accountKeys i = false →
      labelStep known r.accountKeys acc i = acc) ∧
    (∀ (acc : List (String × ℕ)) (i : Instr),
      wellFormedIx r.accountKeys i = false →
      extractStep r.accountKeys acc i = acc) := by
  refine ⟨?_, fun acc i h => labelStep_malformed known _ acc i h,
    fun acc i h => extractStep_malformed _ acc i h⟩
  unfold processReceipt
  rw [protocolLabeler_dropMalformed, extractDiscriminators_dropMalformed]

/-- Witness for C4 (amended) at a concrete input. -/
theorem malformed_instructions_skipped_witness :
    processReceipt known0 (some (dropMalformed rcptBadIdx)) state0 =
      processReceipt known0 (some rcptBadIdx) state0 ∧
    labelStep known0 rcptBadIdx.accountKeys [] ⟨some 5, none⟩ = [] :=
  ⟨(malformed_instructions_skipped known0 rcptBadIdx state0).1,
   (malformed_instructions_skipped known0 rcptBadIdx state0).2.1 []
     ⟨some 5, none⟩ (by decide)⟩

/-- Claim C5: `_get_ordered_instructions` evaluated on the claim's own
flattening example.  On the standard (sparse) representation, where
`meta.innerInstructions` has no entry for top-level instruction 1, the
unguarded `inner_instructions[idx]` raises KeyError (embedded as `none`) and
no flattened sequence is produced at all; only with a non-standard explicit
empty group for index 1 does the code produce the claimed order
0, 0.0, 0.1, 1. -/
theorem ordered_instructions_on_example :
    getOrderedInstructions txSparse = none ∧
    getOrderedInstructions txDense =
      some [("Asys", [1]), ("Asys", [3]), ("Bprog", [4]), ("Bprog", [2])] := by
  decide

/-- Counterexample to claim C6 as stated: the labeler of
src/voyager/solana_voyager_env.py applies protocol discovery only to
successful transactions — the same record yields no protocols when
`meta.err` is set and the known program's name when it is not, so discovery
is not applied identically regardless of success. -/
theorem sv_labeler_gates_on_success :
    svProtocolLabeler known0
      (some ⟨["ProgA"], [⟨some 0, none⟩], [], some "InstructionError"⟩) = [] ∧
    svProtocolLabeler known0
      (some ⟨["ProgA"], [⟨some 0, none⟩], [], none⟩) = ["Alpha"] := by
  decide

/-- Claim C6 (amended): in the voyager_env.py engine, discovery is
success-independent — the reward and discovery update of a receipt do not
depend on its `meta.err` field at all (the labeler and the discriminator
extractor never read it); the superseded labeler of
src/voyager/solana_voyager_env.py, by contrast, skips failed
transactions. -/
theorem discovery_ignores_success (known : List (String × String))
    (a : List String) (ins : List Instr) (inn : List (List Instr))
    (e₁ e₂ : Option String) (s : DiscoveryState) :
    processReceipt known (some ⟨a, ins, inn, e₁⟩) s =
      processReceipt known (some ⟨a, ins, inn, e₂⟩) s := rfl

/-- Witness for C6 (amended) at a concrete input: a failed and a successful
copy of the same transaction produce the identical reward and state. -/
theorem discovery_ignores_success_witness :
    processReceipt known0
      (some ⟨["ProgA"], [⟨some 0, some [7]⟩], [], some "InstructionError"⟩)
      state0 =
    processReceipt known0
      (some ⟨["ProgA"], [⟨some 0, some [7]⟩], [], none⟩) state0 :=
  discovery_ignores_success known0 ["ProgA"] [⟨some 0, some [7]⟩] []
    (some "InstructionError") none state0

/-- Counterexample to claim C7 as stated: when the validator process stays
alive but never emits the ready marker, `start` does not fail with a timeout
error within any bound — the readiness loop blocks forever (`hangs`), and
the teardown of the `finally` block is never reached.  There is no timeout
branch in `_surfpool_validator` at all. -/
theorem readiness_wait_never_times_out :
    containsTok ("surfpool log line".toList) = false ∧
    startOutcome ["surfpool log line".toList] false = StartOutcome.hangs ∧
    (launchSession ["surfpool log line".toList] false).2 = false := by
  decide

/-- Claim C7 (amended): if the validator subprocess exits before emitting
the ready marker, start fails with the premature-exit error and the teardown
still runs; if the process stays alive without the marker, start blocks
forever (there is no bounded timeout); whenever a marker line appears the
start succeeds and teardown runs at session exit; teardown sends nothing to
an already-dead process, SIGTERM alone on a graceful exit, and SIGTERM then
SIGKILL when the grace period expires. -/
theorem validator_launch_contract (lines : List (List Char)) (eof : Bool) :
    ((∀ l ∈ lines, containsTok l = false) → eof = true →
      startOutcome lines eof = .prematureExit ∧
      (launchSession lines eof).2 = true) ∧
    ((∀ l ∈ lines, containsTok l = false) → eof = false →
      startOutcome lines eof = .hangs) ∧
    ((∃ l ∈ lines, containsTok l = true) →
      startOutcome lines eof = .ready ∧ (launchSession lines eof).2 = true) ∧
    (∀ g, stopActions false g = []) ∧
    stopActions true true = [.sigterm] ∧
    stopActions true false = [.sigterm, .sigkill] := by
  refine ⟨?_, ?_, ?_, fun g => rfl, rfl, rfl⟩
  · intro hno heof
    subst heof
    have h := startOutcome_no_token lines true hno
    rw [if_pos rfl] at h
    refine ⟨h, launchSession_teardown lines true ?_⟩
    rw [h]
    intro hc
    cases hc
  · intro hno heof
    subst heof
    have h := startOutcome_no_token lines false hno
    simpa using h
  · intro hex
    have h := startOutcome_token lines eof hex
    refine ⟨h, launchSession_teardown lines eof ?_⟩
    rw [h]
    intro hc
    cases hc

/-- Witness for C7 (amended) at concrete inputs: immediate exit without
output gives the premature-exit failure with teardown, and a line containing
the marker gives a ready start. -/
theorem validator_launch_contract_witness :
    (startOutcome [] true = StartOutcome.prematureExit ∧
      (launchSession [] true).2 = true) ∧
    startOutcome ["x Connection established. y".toList] false =
      StartOutcome.ready :=
  ⟨(validator_launch_contract [] true).1
      (fun l hl => absurd hl (List.not_mem_nil l)) rfl,
   ((validator_launch_contract ["x Connection established. y".toList]
      false).2.2.1
      ⟨"x Connection established. y".toList, by decide, by decide⟩).1⟩

/-- Claim C8: growth-loop retry budget and atomic registration.  The loop
uses at most `CONFIG_MAX_LLM_SKILL_TRIES = 3` proposal attempts; when it
ends unaccepted the registry is untouched, all three attempts were consumed,
and the returned failure carries the last attempt's error; when attempt `k`
is the first to pass (each earlier attempt having failed, its error fed into
the next proposal, per `fedErr`), the loop registers exactly that skill
under the next integer id and stops after `k + 1` attempts; and a skill id
is returned only for the single registered skill. -/
theorem growth_loop_contract (attempt : ℕ → Option String → AttemptRes)
    (skills : List String) :
    ((growSkill attempt skills).attemptsUsed ≤ CONFIG_MAX_LLM_SKILL_TRIES) ∧
    ((growSkill attempt skills).newSkillId = none →
      (growSkill attempt skills).skills = skills ∧
      (growSkill attempt skills).attemptsUsed = CONFIG_MAX_LLM_SKILL_TRIES ∧
      (growSkill attempt skills).lastError =
        fedErr attempt CONFIG_MAX_LLM_SKILL_TRIES) ∧
    (∀ k c, k < CONFIG_MAX_LLM_SKILL_TRIES →
      (∀ i, i < k → isFailA (attempt i (fedErr attempt i)) = true) →
      attempt k (fedErr attempt k) = .ok c →
      growSkill attempt skills =
        ⟨0, some skills.length, none, skills ++ [c], k + 1⟩) ∧
    ((∀ i, i < CONFIG_MAX_LLM_SKILL_TRIES →
        isFailA (attempt i (fedErr attempt i)) = true) →
      growSkill attempt skills =
        ⟨0, none, fedErr attempt CONFIG_MAX_LLM_SKILL_TRIES, skills,
          CONFIG_MAX_LLM_SKILL_TRIES⟩) ∧
    (∀ id, (growSkill attempt skills).newSkillId = some id →
      id = skills.length ∧
      (growSkill attempt skills).skills.length = skills.length + 1) := by
  rcases h0 : attempt 0 none with c0 | e0
  · have hg : growSkill attempt skills =
        ⟨0, some skills.length, none, skills ++ [c0], 1⟩ := by
      simp [growSkill, CONFIG_MAX_LLM_SKILL_TRIES, growGo, h0]
    refine ⟨?_, ?_, ?_, ?_, ?_⟩
    · rw [hg]; simp [CONFIG_MAX_LLM_SKILL_TRIES]
    · rw [hg]; intro hcontra; cases hcontra
    · intro k c hk hfail hok
      have hk0 : k = 0 := by
        by_contra hne
        have h1 : 0 < k := Nat.pos_of_ne_zero hne
        have := hfail 0 h1
        rw [show fedErr attempt 0 = none from rfl, h0] at this
        simp [isFailA] at this
      subst hk0
      rw [show fedErr attempt 0 = none from rfl, h0] at hok
      cases hok
      exact hg
    · intro hall
      have := hall 0 (by simp [CONFIG_MAX_LLM_SKILL_TRIES])
      rw [show fedErr attempt 0 = none from rfl, h0] at this
      simp [isFailA] at this
    · intro id hid
      rw [hg] at hid
      cases hid
      rw [hg]
      simp
  · have hf1 : fedErr attempt 1 = some e0 := by simp [fedErr, h0]
    rcases h1 : attempt 1 (some e0) with c1 | e1
    · have hg : growSkill attempt skills =
          ⟨0, some skills.length, none, skills ++ [c1], 2⟩ := by
        simp [growSkill, CONFIG_MAX_LLM_SKILL_TRIES, growGo, h0, h1]
      refine ⟨?_, ?_, ?_, ?_, ?_⟩
      · rw [hg]; simp [CONFIG_MAX_LLM_SKILL_TRIES]
      · rw [hg]; intro hcontra; cases hcontra
      · intro k c hk hfail hok
        have hk1 : k = 1 := by
          rcases Nat.lt_or_ge k 1 with hlt | hge
          · interval_cases k
            rw [show fedErr attempt 0 = none from rfl, h0] at hok
            cases hok
          · rcases Nat.lt_or_ge k 2 with hlt2 | hge2
            · omega
            · have := hfail 1 (by omega)
              rw [hf1, h1] at this
              simp [isFailA] at this
        subst hk1
        rw [hf1, h1] at hok
        cases hok
        exact hg
      · intro hall
        have := hall 1 (by simp [CONFIG_MAX_LLM_SKILL_TRIES])
        rw [hf1, h1] at this
        simp [isFailA] at this
      · intro id hid
        rw [hg] at hid
        cases hid
        rw [hg]
        simp
    · have hf2 : fedErr attempt 2 = some e1 := by simp [fedErr, h0, hf1, h1]
      rcases h2 : attempt 2 (some e1) with c2 | e2
      · have hg : growSkill attempt skills =
            ⟨0, some skills.length, none, skills ++ [c2], 3⟩ := by
          simp [growSkill, CONFIG_MAX_LLM_SKILL_TRIES, growGo, h0, h1, h2]
        refine ⟨?_, ?_, ?_, ?_, ?_⟩
        · rw [hg]; simp [CONFIG_MAX_LLM_SKILL_TRIES]
        · rw [hg]; intro hcontra; cases hcontra
        · intro k c hk hfail hok
          have hk2 : k = 2 := by
            rcases Nat.lt_or_ge k 2 with hlt | hge
            · interval_cases k
              · rw [show fedErr attempt 0 = none from rfl, h0] at hok
                cases hok
              · rw [hf1, h1] at hok
                cases hok
            · simp [CONFIG_MAX_LLM_SKILL_TRIES] at hk
              omega
          subst hk2
          rw [hf2, h2] at hok
          cases hok
          exact hg
        · intro hall
          have := hall 2 (by simp [CONFIG_MAX_LLM_SKILL_TRIES])
          rw [hf2, h2] at this
          simp [isFailA] at this
        · intro id hid
          rw [hg] at hid
          cases hid
          rw [hg]
          simp
      · have hf3 : fedErr attempt 3 = some e2 := by
          simp [fedErr, h0, hf1, h1, hf2, h2]
        have hg : growSkill attempt skills = ⟨0, none, some e2, skills, 3⟩ := by
          simp [growSkill, CONFIG_MAX_LLM_SKILL_TRIES, growGo, h0, h1, h2]
        refine ⟨?_, ?_, ?_, ?_, ?_⟩
        · rw [hg]; simp [CONFIG_MAX_LLM_SKILL_TRIES]
        · intro _
          rw [hg]
          exact ⟨rfl, rfl, hf3.symm⟩
        · intro k c hk hfail hok
          have : k < 3 := by simpa [CONFIG_MAX_LLM_SKILL_TRIES] using hk
          interval_cases k
          · rw [show fedErr attempt 0 = none from rfl, h0] at hok
            cases hok
          · rw [hf1, h1] at hok
            cases hok
          · rw [hf2, h2] at hok
            cases hok
        · intro _
          rw [hg,
            (show fedErr attempt CONFIG_MAX_LLM_SKILL_TRIES = some e2 from hf3)]
          rfl
        · intro id hid
          rw [hg] at hid
          cases hid

/-- Witness for C8 at a concrete input: the oracle `attemptW` fails once
with detail "boom" and then passes, so the loop registers the skill on its
second attempt. -/
theorem growth_loop_contract_witness :
    growSkill attemptW ["s0"] =
      ⟨0, some (["s0"].length), none, ["s0"] ++ ["tx-ok"], 1 + 1⟩ :=
  (growth_loop_contract attemptW ["s0"]).2.2.1 1 "tx-ok" (by decide)
    (by
      intro i hi
      have h0 : i = 0 := by omega
      subst h0
      rfl)
    rfl

/-- Counterexample to claim C9 as stated: `save_skill` writes
`{name}.ts` in place — saving a second skill under an existing name replaces
the file's content, so the original version is not retrievable afterwards
(the store holds only the new content). -/
theorem save_skill_overwrites_in_place :
    saveSkill (saveSkill [] "new_skill" "codeA") "new_skill" "codeB" =
      [(⟨"new_skill", 0⟩, "codeB")] ∧
    "codeA" ≠ "codeB" := by
  decide

/-- Claim C9 (amended): registering a replacement skill through
`add_new_skill` under an already-registered name never touches the original
`name.ts` file — the replacement is dumped under the first free V-suffixed
name (suffix at least 2), and afterwards the original file content and the
new file are both retrievable; `save_skill`, by contrast, overwrites
`name.ts` in place. -/
theorem add_new_skill_archives (skills : List (String × String))
    (files : List (SkillFile × String)) (name code : String)
    (hname : (assocLookup skills name).isSome = true) :
    2 ≤ freeVer files name ∧
    assocLookup (addNewSkill skills files name code).2 ⟨name, 0⟩ =
      assocLookup files ⟨name, 0⟩ ∧
    assocLookup (addNewSkill skills files name code).2
      ⟨name, freeVer files name⟩ = some code ∧
    assocLookup (addNewSkill skills files name code).1 name = some code := by
  have hdump : (addNewSkill skills files name code).2 =
      assocInsert files ⟨name, freeVer files name⟩ code := by
    unfold addNewSkill
    rw [if_pos hname]
  refine ⟨freeVer_ge_two files name, ?_, ?_, ?_⟩
  · rw [hdump]
    apply assocLookup_insert_ne
    intro hc
    have h2 := freeVer_ge_two files name
    have : (0 : ℕ) = freeVer files name := congrArg SkillFile.ver hc
    omega
  · rw [hdump]
    exact assocLookup_insert_self files ⟨name, freeVer files name⟩ code
  · show assocLookup (assocInsert skills name code) name = some code
    exact assocLookup_insert_self skills name code

/-- Witness for C9 (amended) at a concrete input: re-registering name "s"
archives the new code as version 2 while `s.ts` keeps its old content. -/
theorem add_new_skill_archives_witness :
    (assocLookup [("s", "c0")] "s").isSome = true ∧
    assocLookup (addNewSkill [("s", "c0")] [(⟨"s", 0⟩, "c0")] "s" "c1").2
      ⟨"s", 0⟩ = some "c0" ∧
    assocLookup (addNewSkill [("s", "c0")] [(⟨"s", 0⟩, "c0")] "s" "c1").2
      ⟨"s", freeVer [(⟨"s", 0⟩, "c0")] "s"⟩ = some "c1" :=
  ⟨rfl,
   ((add_new_skill_archives [("s", "c0")] [(⟨"s", 0⟩, "c0")] "s" "c1"
      rfl).2.1).trans (by decide),
   (add_new_skill_archives [("s", "c0")] [(⟨"s", 0⟩, "c0")] "s" "c1"
      rfl).2.2.1⟩

/-- Claim C10: running an unknown skill id is a no-op with an error info.
When the id is not in the skill registry, `_run_skill` returns reward 0.0
together with the "Skill {id} not found." error message and leaves the
discovery state unchanged (the embedding is total, so no exception is
raised). -/
theorem unknown_skill_is_noop (known : List (String × String))
    (skills : List (ℕ × String)) (skillId : ℕ) (execReceipt : Option Receipt)
    (s : DiscoveryState) (h : assocLookup skills skillId = none) :
    runSkill known skills skillId execReceipt s =
      ⟨0, some ("Skill " ++ toString skillId ++ " not found."), s⟩ := by
  unfold runSkill
  rw [h]
  rfl

/-- Witness for C10 at a concrete input: skill 7 against an empty registry. -/
theorem unknown_skill_is_noop_witness :
    assocLookup ([] : List (ℕ × String)) 7 = none ∧
    runSkill known0 [] 7 (some rcptA) state0 =
      ⟨0, some ("Skill " ++ toString 7 ++ " not found."), state0⟩ :=
  ⟨rfl, unknown_skill_is_noop known0 [] 7 (some rcptA) state0 rfl⟩

end SolanaGym
